import Mathlib

/-!
Verification of `inactivity_report.py` (WhatsApp group-chat inactivity
analyzer).  The Python source is shallowly embedded below: lines are lists
of characters, the three regular expressions are embedded as explicit
matchers with the same backtracking preference order, `datetime.strptime`
is embedded for the four formats the program uses (including the calendar
validation the `datetime` constructor performs), the aggregation loop of
`analyze_chat` becomes a fold over the line list, and the four status
call sites (`member_status_counts`, `print_report`, `export_csv`,
`plot_activity_pie`) are embedded separately, one definition per call site.

Modelling conventions: the regex class `\d` is embedded as the ASCII digits
and `\s`/`str.strip` as the ASCII whitespace characters (the transcripts the
program reads are ASCII in the relevant positions); logical lines contain no
newline character, as the file iterator splits on newlines.  Python floats
are embedded as exact rationals, with `round(x, 2)` embedded as rounding
half to even at two decimals.
-/

namespace InactivityReport

/-- A Python string, as the list of its characters. -/
abbrev Str := List Char

/-- The characters `str.strip()` removes and the regex class `\s` accepts. -/
def isWs (c : Char) : Bool :=
  c = ' ' ∨ c = '\t' ∨ c = '\n' ∨ c = '\r' ∨ c = Char.ofNat 11 ∨ c = Char.ofNat 12

/-- Python `str.strip()`: drop leading and trailing whitespace. -/
def strip (l : Str) : Str :=
  ((l.dropWhile isWs).reverse.dropWhile isWs).reverse

/-- Naive datetimes at minute granularity, as `datetime.strptime` builds them
for the four formats of `parse_date` (seconds and microseconds are always 0
there, so they are omitted). -/
structure DateTime where
  year : Nat
  month : Nat
  day : Nat
  hour : Nat
  minute : Nat
deriving DecidableEq

/-- Python `datetime` comparison: lexicographic on the fields. -/
def dtLt (a b : DateTime) : Bool :=
  decide (a.year < b.year ∨ (a.year = b.year ∧ (a.month < b.month ∨ (a.month = b.month ∧
    (a.day < b.day ∨ (a.day = b.day ∧ (a.hour < b.hour ∨ (a.hour = b.hour ∧
      a.minute < b.minute))))))))

/-- The larger of two datetimes under `dtLt`. -/
def dtMax (a b : DateTime) : DateTime :=
  if dtLt a b then b else a

/-- Days from 1970-01-01 to the given civil date (valid for the years the
program can parse; days_from_civil). -/
def daysFromCivil (dt : DateTime) : Int :=
  let y : Int := if dt.month ≤ 2 then (dt.year : Int) - 1 else (dt.year : Int)
  let m : Int := (dt.month : Int)
  let era : Int := Int.fdiv y 400
  let yoe : Int := y - era * 400
  let doy : Int := Int.fdiv (153 * (if 2 < m then m - 3 else m + 9) + 2) 5 + (dt.day : Int) - 1
  let doe : Int := yoe * 365 + Int.fdiv yoe 4 - Int.fdiv yoe 100 + doy
  era * 146097 + doe - 719468

/-- Minutes from the epoch: the linearization `datetime` subtraction uses. -/
def toMinutes (dt : DateTime) : Int :=
  1440 * daysFromCivil dt + 60 * (dt.hour : Int) + (dt.minute : Int)

/-- Python `(now - t).days`: the floor of the difference in days
(`timedelta.days` floors toward minus infinity). -/
def daysSince (now t : DateTime) : Int :=
  Int.fdiv (toMinutes now - toMinutes t) 1440

/-- Value of an ASCII digit character. -/
def dv (c : Char) : Nat := c.toNat - 48

/-! ### `datetime.strptime`, for the four formats of `parse_date`

CPython compiles each format into one regular expression
(`Lib/_strptime.py`): `%d ↦ (3[01]|[12]\d|0[1-9]|[1-9])`,
`%m ↦ (1[0-2]|0[1-9]|[1-9])`, `%Y ↦ \d\d\d\d`, `%y ↦ \d\d`,
`%H ↦ (2[0-3]|[0-1]\d|\d)`, `%I ↦ (1[0-2]|0[1-9]|[1-9])`,
`%M ↦ ([0-5]\d)`, `%p ↦ (AM|PM)` case-insensitively, and a whitespace run
in the format into `\s+`; the match must start at 0 and consume the whole
string.  Each directive below returns its candidate (value, rest) pairs in
the preference order of the regex engine, so binding them in sequence and
taking the first complete parse reproduces the backtracking search. -/

/-- `%d`: alternatives `3[01] | [12]\d | 0[1-9] | [1-9]`, in order. -/
def pDay : Str → List (Nat × Str)
  | c1 :: c2 :: rest =>
    (if c1 = '3' ∧ (c2 = '0' ∨ c2 = '1') then [(30 + dv c2, rest)] else []) ++
    (if (c1 = '1' ∨ c1 = '2') ∧ c2.isDigit then [(10 * dv c1 + dv c2, rest)] else []) ++
    (if c1 = '0' ∧ ('1' ≤ c2 ∧ c2 ≤ '9') then [(dv c2, rest)] else []) ++
    (if '1' ≤ c1 ∧ c1 ≤ '9' then [(dv c1, c2 :: rest)] else [])
  | [c1] => if '1' ≤ c1 ∧ c1 ≤ '9' then [(dv c1, [])] else []
  | [] => []

/-- `%m` and `%I`: alternatives `1[0-2] | 0[1-9] | [1-9]`, in order. -/
def pMonth : Str → List (Nat × Str)
  | c1 :: c2 :: rest =>
    (if c1 = '1' ∧ ('0' ≤ c2 ∧ c2 ≤ '2') then [(10 + dv c2, rest)] else []) ++
    (if c1 = '0' ∧ ('1' ≤ c2 ∧ c2 ≤ '9') then [(dv c2, rest)] else []) ++
    (if '1' ≤ c1 ∧ c1 ≤ '9' then [(dv c1, c2 :: rest)] else [])
  | [c1] => if '1' ≤ c1 ∧ c1 ≤ '9' then [(dv c1, [])] else []
  | [] => []

/-- `%Y`: exactly four digits. -/
def pYear4 : Str → List (Nat × Str)
  | c1 :: c2 :: c3 :: c4 :: rest =>
    if c1.isDigit ∧ c2.isDigit ∧ c3.isDigit ∧ c4.isDigit then
      [(1000 * dv c1 + 100 * dv c2 + 10 * dv c3 + dv c4, rest)]
    else []
  | _ => []

/-- `%y`: exactly two digits, mapped into 1969..2068 as strptime does. -/
def pYear2 : Str → List (Nat × Str)
  | c1 :: c2 :: rest =>
    if c1.isDigit ∧ c2.isDigit then
      let v := 10 * dv c1 + dv c2
      [(if v ≤ 68 then 2000 + v else 1900 + v, rest)]
    else []
  | _ => []

/-- `%H`: alternatives `2[0-3] | [0-1]\d | \d`, in order. -/
def pHour24 : Str → List (Nat × Str)
  | c1 :: c2 :: rest =>
    (if c1 = '2' ∧ ('0' ≤ c2 ∧ c2 ≤ '3') then [(20 + dv c2, rest)] else []) ++
    (if (c1 = '0' ∨ c1 = '1') ∧ c2.isDigit then [(10 * dv c1 + dv c2, rest)] else []) ++
    (if c1.isDigit then [(dv c1, c2 :: rest)] else [])
  | [c1] => if c1.isDigit then [(dv c1, [])] else []
  | [] => []

/-- `%M`: `[0-5]\d`. -/
def pMinute : Str → List (Nat × Str)
  | c1 :: c2 :: rest =>
    if ('0' ≤ c1 ∧ c1 ≤ '5') ∧ c2.isDigit then [(10 * dv c1 + dv c2, rest)] else []
  | _ => []

/-- `%p`: `AM` or `PM`, case-insensitively; `true` means PM. -/
def pMeridiem : Str → List (Bool × Str)
  | c1 :: c2 :: rest =>
    (if (c1 = 'A' ∨ c1 = 'a') ∧ (c2 = 'M' ∨ c2 = 'm') then [(false, rest)] else []) ++
    (if (c1 = 'P' ∨ c1 = 'p') ∧ (c2 = 'M' ∨ c2 = 'm') then [(true, rest)] else [])
  | _ => []

/-- A literal character of the format. -/
def pLit (c : Char) : Str → List Str
  | x :: rest => if x = c then [rest] else []
  | [] => []

/-- A whitespace run in the format: `\s+` (greedy; the directives that follow
it in these formats never accept a whitespace character, so consuming the
whole run is exact). -/
def pSpace (s : Str) : List Str :=
  let rest := s.dropWhile isWs
  if rest.length < s.length then [rest] else []

/-- Leap years of the proleptic Gregorian calendar (`calendar.isleap`). -/
def isLeap (y : Nat) : Bool := y % 4 = 0 ∧ (y % 100 ≠ 0 ∨ y % 400 = 0)

/-- Length of a month, as the `datetime` constructor validates it. -/
def daysInMonth (y m : Nat) : Nat :=
  if m = 2 then (if isLeap y then 29 else 28)
  else if m = 4 ∨ m = 6 ∨ m = 9 ∨ m = 11 then 30 else 31

/-- The `datetime(year, month, day, hour, minute)` constructor: `None` when
the field values are out of range (strptime lets the `ValueError` propagate,
and `parse_date` catches it and tries the next format). The regex already
bounds month, day, hour and minute; year and day-of-month remain to check. -/
def mkDateTime (y mo d h mi : Nat) : Option DateTime :=
  if 1 ≤ y ∧ y ≤ 9999 ∧ 1 ≤ d ∧ d ≤ daysInMonth y mo then
    some ⟨y, mo, d, h, mi⟩
  else none

/-- Regex phase of `strptime(s, "%d/%m/%Y, %H:%M")`: raw field tuples in
backtracking order. -/
def runDMY4 (s : Str) : List (Nat × Nat × Nat × Nat × Nat) :=
  (pDay s).flatMap fun p1 =>
  (pLit '/' p1.2).flatMap fun s1 =>
  (pMonth s1).flatMap fun p2 =>
  (pLit '/' p2.2).flatMap fun s2 =>
  (pYear4 s2).flatMap fun p3 =>
  (pLit ',' p3.2).flatMap fun s3 =>
  (pSpace s3).flatMap fun s4 =>
  (pHour24 s4).flatMap fun p4 =>
  (pLit ':' p4.2).flatMap fun s5 =>
  (pMinute s5).flatMap fun p5 =>
  if p5.2.isEmpty then [(p1.1, p2.1, p3.1, p4.1, p5.1)] else []

/-- Regex phase of `strptime(s, "%d/%m/%y, %H:%M")`. -/
def runDMY2 (s : Str) : List (Nat × Nat × Nat × Nat × Nat) :=
  (pDay s).flatMap fun p1 =>
  (pLit '/' p1.2).flatMap fun s1 =>
  (pMonth s1).flatMap fun p2 =>
  (pLit '/' p2.2).flatMap fun s2 =>
  (pYear2 s2).flatMap fun p3 =>
  (pLit ',' p3.2).flatMap fun s3 =>
  (pSpace s3).flatMap fun s4 =>
  (pHour24 s4).flatMap fun p4 =>
  (pLit ':' p4.2).flatMap fun s5 =>
  (pMinute s5).flatMap fun p5 =>
  if p5.2.isEmpty then [(p1.1, p2.1, p3.1, p4.1, p5.1)] else []

/-- Regex phase of `strptime(s, "%m/%d/%Y, %I:%M %p")`: the last component
records PM (`%I` compiles to the same alternatives as `%m`, so `pMonth`
serves for both). -/
def runMDY4 (s : Str) : List (Nat × Nat × Nat × Nat × Nat × Bool) :=
  (pMonth s).flatMap fun p1 =>
  (pLit '/' p1.2).flatMap fun s1 =>
  (pDay s1).flatMap fun p2 =>
  (pLit '/' p2.2).flatMap fun s2 =>
  (pYear4 s2).flatMap fun p3 =>
  (pLit ',' p3.2).flatMap fun s3 =>
  (pSpace s3).flatMap fun s4 =>
  (pMonth s4).flatMap fun p4 =>
  (pLit ':' p4.2).flatMap fun s5 =>
  (pMinute s5).flatMap fun p5 =>
  (pSpace p5.2).flatMap fun s6 =>
  (pMeridiem s6).flatMap fun p6 =>
  if p6.2.isEmpty then [(p1.1, p2.1, p3.1, p4.1, p5.1, p6.1)] else []

/-- Regex phase of `strptime(s, "%m/%d/%y, %I:%M %p")`. -/
def runMDY2 (s : Str) : List (Nat × Nat × Nat × Nat × Nat × Bool) :=
  (pMonth s).flatMap fun p1 =>
  (pLit '/' p1.2).flatMap fun s1 =>
  (pDay s1).flatMap fun p2 =>
  (pLit '/' p2.2).flatMap fun s2 =>
  (pYear2 s2).flatMap fun p3 =>
  (pLit ',' p3.2).flatMap fun s3 =>
  (pSpace s3).flatMap fun s4 =>
  (pMonth s4).flatMap fun p4 =>
  (pLit ':' p4.2).flatMap fun s5 =>
  (pMinute s5).flatMap fun p5 =>
  (pSpace p5.2).flatMap fun s6 =>
  (pMeridiem s6).flatMap fun p6 =>
  if p6.2.isEmpty then [(p1.1, p2.1, p3.1, p4.1, p5.1, p6.1)] else []

/-- Hour conversion `%I` + `%p`: 12 AM is 0, 12 PM is 12, otherwise PM adds
12 (strptime). -/
def hour12to24 (h : Nat) (pm : Bool) : Nat :=
  if pm then (if h = 12 then 12 else h + 12) else (if h = 12 then 0 else h)

/-- `strptime(s, "%d/%m/%Y, %H:%M")`: the regex engine yields its first
match, then the `datetime` constructor validates it. -/
def tryDMY4 (s : Str) : Option DateTime :=
  match (runDMY4 s).head? with
  | some (d, mo, y, h, mi) => mkDateTime y mo d h mi
  | none => none

/-- `strptime(s, "%d/%m/%y, %H:%M")`. -/
def tryDMY2 (s : Str) : Option DateTime :=
  match (runDMY2 s).head? with
  | some (d, mo, y, h, mi) => mkDateTime y mo d h mi
  | none => none

/-- `strptime(s, "%m/%d/%Y, %I:%M %p")`. -/
def tryMDY4 (s : Str) : Option DateTime :=
  match (runMDY4 s).head? with
  | some (mo, d, y, h, mi, pm) => mkDateTime y mo d (hour12to24 h pm) mi
  | none => none

/-- `strptime(s, "%m/%d/%y, %I:%M %p")`. -/
def tryMDY2 (s : Str) : Option DateTime :=
  match (runMDY2 s).head? with
  | some (mo, d, y, h, mi, pm) => mkDateTime y mo d (hour12to24 h pm) mi
  | none => none

/-- The format list of `parse_date` (source lines 15-20), in order. -/
def formats : List (Str → Option DateTime) :=
  [tryDMY4, tryDMY2, tryMDY4, tryMDY2]

/-- `parse_date` (source lines 14-26): try each format in order, return the
first success, `None` when every format fails. -/
def parse_date (s : Str) : Option DateTime :=
  formats.foldl (fun acc f => acc.orElse (fun _ => f s)) none

/-! ### The three line patterns (source lines 9-11) -/

/-- The literal token of `ADDED_PATTERN`, `" added "`. -/
def addedTok : Str := " added ".toList

/-- The literal suffix of `JOINED_PATTERN` (written without an apostrophe
character in this source; it is the 38-character suffix of the pattern on
source line 11). -/
def joinedTok : Str :=
  (" joined using this group" ++ String.singleton (Char.ofNat 39) ++ "s invite link").toList

/-- `ADDED_PATTERN.match(line)`, `^(.*) added (.*)$`: the first group is
greedy, so a match splits the line at the LAST occurrence of `" added "`;
the result is the second group (the remainder after that occurrence). -/
def matchAdded : Str → Option Str
  | [] => none
  | c :: rest =>
    match matchAdded rest with
    | some r => some r
    | none =>
      if addedTok.isPrefixOf (c :: rest) then some ((c :: rest).drop addedTok.length)
      else none

/-- `JOINED_PATTERN.match(line)`, `^(.*) joined using this group's invite
link$`: the line must end with the literal suffix; the result is the first
group (everything before it). -/
def matchJoined (s : Str) : Option Str :=
  if joinedTok.isSuffixOf s then some (s.take (s.length - joinedTok.length)) else none

/-- The candidates of `\d{1,2}` (or `\d{2,4}`, …): take `n` digits for each
`n` in `lens`, which lists the lengths in the greedy preference order. -/
def digitCands (lens : List Nat) (s : Str) : List (Str × Str) :=
  lens.filterMap fun n =>
    let t := s.take n
    if t.length = n ∧ t.all Char.isDigit then some (t, s.drop n) else none

/-- A character of the class `[APMapm]`. -/
def isAPM (c : Char) : Bool :=
  c = 'A' ∨ c = 'P' ∨ c = 'M' ∨ c = 'a' ∨ c = 'p' ∨ c = 'm'

/-- The candidates of `(?:\s?[APMapm]{2})?` in preference order: greedy, so
whitespace-plus-two-letters first, then two letters, then nothing.  Returns
(captured text, rest). -/
def merCands (s : Str) : List (Str × Str) :=
  (match s with
   | c1 :: c2 :: c3 :: rest =>
     if isWs c1 ∧ isAPM c2 ∧ isAPM c3 then [([c1, c2, c3], rest)] else []
   | _ => []) ++
  (match s with
   | c1 :: c2 :: rest =>
     if isAPM c1 ∧ isAPM c2 then [([c1, c2], rest)] else []
   | _ => []) ++
  [([], s)]

/-- A literal token inside a pattern. -/
def litTok (tok : Str) (s : Str) : List Str :=
  if tok.isPrefixOf s then [s.drop tok.length] else []

/-- Split at the FIRST occurrence of `tok` (the non-greedy `(.*?)` of
`LINE_PATTERN`, followed by `(.*)$` which accepts any remainder). -/
def splitFirst (tok : Str) : Str → Option (Str × Str)
  | [] => if tok.isEmpty then some ([], []) else none
  | c :: rest =>
    if tok.isPrefixOf (c :: rest) then some ([], (c :: rest).drop tok.length)
    else (splitFirst tok rest).map fun p => (c :: p.1, p.2)

/-- `LINE_PATTERN.match(line)` (source line 9):
`^(\d{1,2}/\d{1,2}/\d{2,4}, \d{1,2}:\d{2}(?:\s?[APMapm]{2})? ) - (.*?): (.*)$`
(first group shown with its trailing boundary).  Candidates for the
date-time group are produced in the regex engine's preference order; for
each, the literal `" - "` must follow and the sender is the shortest prefix
of the remainder followed by `": "`.  Returns (group 1, sender, body). -/
def matchLine (s : Str) : Option (Str × Str × Str) :=
  ((digitCands [2, 1] s).flatMap fun d1 =>
   (litTok ['/'] d1.2).flatMap fun s1 =>
   (digitCands [2, 1] s1).flatMap fun d2 =>
   (litTok ['/'] d2.2).flatMap fun s2 =>
   (digitCands [4, 3, 2] s2).flatMap fun d3 =>
   (litTok [',', ' '] d3.2).flatMap fun s3 =>
   (digitCands [2, 1] s3).flatMap fun d4 =>
   (litTok [':'] d4.2).flatMap fun s4 =>
   (digitCands [2] s4).flatMap fun d5 =>
   (merCands d5.2).flatMap fun d6 =>
   (litTok [' ', '-', ' '] d6.2).flatMap fun s5 =>
   match splitFirst [':', ' '] s5 with
   | some p =>
     [(d1.1 ++ ['/'] ++ d2.1 ++ ['/'] ++ d3.1 ++ [',', ' '] ++ d4.1 ++ [':'] ++ d5.1 ++ d6.1,
       p.1, p.2)]
   | none => []).head?

/-- The classified events of the transcript grammar (§4.1 of the design). -/
inductive Event where
  | added (name : Str)
  | joined (name : Str)
  | message (dt : DateTime) (sender body : Str)
  | unrecognized
deriving DecidableEq

/-- One iteration of the loop of `analyze_chat` (source lines 34-58), up to
the state update: strip the line, then try `ADDED_PATTERN`,
`JOINED_PATTERN` and `LINE_PATTERN` in that order; a shape-matched message
whose date-time substring fails `parse_date` is unrecognized. -/
def classify (raw : Str) : Event :=
  let line := strip raw
  match matchAdded line with
  | some m => .added (strip m)
  | none =>
    match matchJoined line with
    | some m => .joined (strip m)
    | none =>
      match matchLine line with
      | some (d, snd, b) =>
        match parse_date d with
        | some dt => .message dt snd b
        | none => .unrecognized
      | none => .unrecognized

/-! ### The aggregation state of `analyze_chat` (source lines 29-69)

`participants` is a `defaultdict` keyed by the name string; Python dicts
iterate in insertion order, so it is embedded as an association list to
which new names are appended at the end. -/

/-- The in-flight per-participant entry (`{"messages": 0, "last": None}`,
the default factory on source line 30). -/
structure Stats where
  messages : Nat
  last : Option DateTime
deriving DecidableEq

/-- The default-factory value. -/
def Stats.init : Stats := ⟨0, none⟩

/-- The running state of the loop. -/
structure ChatState where
  participants : List (Str × Stats)
  total : Nat
deriving DecidableEq

/-- The state before the first line. -/
def ChatState.init : ChatState := ⟨[], 0⟩

/-- Association-list lookup (Python `name in dict` / `dict[name]`). -/
def lookupA {β : Type} : List (Str × β) → Str → Option β
  | [], _ => none
  | (m, st) :: rest, n => if m = n then some st else lookupA rest n

/-- `participants[name]` evaluated for effect only (source lines 41, 48):
insert the default entry at the end when the name is new. -/
def touch (ps : List (Str × Stats)) (n : Str) : List (Str × Stats) :=
  match lookupA ps n with
  | some _ => ps
  | none => ps ++ [(n, Stats.init)]

/-- Replace the entry of `n`, appending it at the end when new (the
`defaultdict` mutation). -/
def setA : List (Str × Stats) → Str → Stats → List (Str × Stats)
  | [], n, st => [(n, st)]
  | (m, s0) :: rest, n, st =>
    if m = n then (m, st) :: rest else (m, s0) :: setA rest n st

/-- The message update of source lines 60-63, applied to the entry of the
sender: `messages += 1`, and `last = dt` when `last` is `None` or
`dt > last`. -/
def updStats (dt : DateTime) (st : Stats) : Stats :=
  ⟨st.messages + 1,
   match st.last with
   | none => some dt
   | some c => some (if dtLt c dt then dt else c)⟩

/-- Source lines 60-63 as one operation on the participant map. -/
def recordMessage (ps : List (Str × Stats)) (n : Str) (dt : DateTime) :
    List (Str × Stats) :=
  setA ps n (updStats dt ((lookupA ps n).getD Stats.init))

/-- The state update of the loop body for one classified event. -/
def ingest (st : ChatState) : Event → ChatState
  | .added n => ⟨touch st.participants n, st.total⟩
  | .joined n => ⟨touch st.participants n, st.total⟩
  | .message dt snd _ => ⟨recordMessage st.participants snd dt, st.total + 1⟩
  | .unrecognized => st

/-- One full iteration of the loop of `analyze_chat`. -/
def processLine (st : ChatState) (raw : Str) : ChatState :=
  ingest st (classify raw)

/-- The loop of `analyze_chat` over the transcript's lines. -/
def chatFold (lines : List Str) : ChatState :=
  lines.foldl processLine ChatState.init

/-! ### Finalization (source lines 65-67) and the status rule -/

/-- Python `round(q, 0)` as an integer: round half to even. -/
def bround (q : ℚ) : ℤ :=
  if q - (⌊q⌋ : ℚ) < 1 / 2 then ⌊q⌋
  else if (1 : ℚ) / 2 < q - (⌊q⌋ : ℚ) then ⌊q⌋ + 1
  else if ⌊q⌋ % 2 = 0 then ⌊q⌋ else ⌊q⌋ + 1

/-- Python `round(q, 2)`: round half to even at two decimal places (floats
are embedded as exact rationals). -/
def round2 (q : ℚ) : ℚ := (bround (q * 100) : ℚ) / 100

/-- Source line 67: `round(messages/total_messages*100, 2) if total_messages
else 0`. -/
def contributionOf (messages total : Nat) : ℚ :=
  if total = 0 then 0 else round2 ((messages : ℚ) / (total : ℚ) * 100)

/-- A finalized entry: the in-flight entry plus its `"contribution"` key. -/
structure FinalStats where
  messages : Nat
  last : Option DateTime
  contribution : ℚ
deriving DecidableEq

/-- Source lines 65-67: add `contribution` to every entry, using the total
at finalize time. -/
def finalize (st : ChatState) : List (Str × FinalStats) :=
  st.participants.map fun p =>
    (p.1, ⟨p.2.messages, p.2.last, contributionOf p.2.messages st.total⟩)

/-- `analyze_chat` (source lines 29-69): the finalized participant map and
`total_messages`. -/
def analyze_chat (lines : List Str) : List (Str × FinalStats) × Nat :=
  (finalize (chatFold lines), (chatFold lines).total)

/-! ### The four active/inactive call sites

`datetime.now()` is an ambient input of each reporting function; it is
passed here as the explicit `now` parameter.  Each definition below embeds
one call site's boolean condition verbatim. -/

/-- The condition of `member_status_counts` (source line 77), with its
`inactivity_days` parameter (default 90): `messages >= 1 and contribution
>= 1 and last and (now - last).days <= inactivity_days` (a `datetime` is
always truthy, so `last` tests presence). -/
def statusActive (now : DateTime) (days : ℤ) (s : FinalStats) : Bool :=
  decide (1 ≤ s.messages) && decide ((1 : ℚ) ≤ s.contribution) &&
    (match s.last with
     | none => false
     | some t => decide (daysSince now t ≤ days))

/-- `member_status_counts` (source lines 72-81): the (active, inactive)
counter pair. -/
def member_status_counts (ps : List (Str × FinalStats)) (now : DateTime)
    (days : ℤ) : Nat × Nat :=
  ps.foldl
    (fun c p => if statusActive now days p.2 then (c.1 + 1, c.2) else (c.1, c.2 + 1))
    (0, 0)

/-- The row condition of `print_report` (source lines 96 and 103, one
condition written twice there), with its hard-coded 90-day threshold. -/
def reportRowActive (now : DateTime) (s : FinalStats) : Bool :=
  decide (1 ≤ s.messages) && decide ((1 : ℚ) ≤ s.contribution) &&
    (match s.last with
     | none => false
     | some t => decide (daysSince now t ≤ (90 : ℤ)))

/-- The sort key of `print_report` (source lines 95-98):
`(0 if active else 1, -messages)`, compared lexicographically. -/
def sortKey (now : DateTime) (p : Str × FinalStats) : ℤ × ℤ :=
  (if reportRowActive now p.2 then 0 else 1, -(p.2.messages : ℤ))

/-- `key a ≤ key b` in Python's lexicographic tuple order. -/
def keyLe (now : DateTime) (a b : Str × FinalStats) : Bool :=
  decide ((sortKey now a).1 < (sortKey now b).1 ∨
    ((sortKey now a).1 = (sortKey now b).1 ∧ (sortKey now a).2 ≤ (sortKey now b).2))

/-- Insert `x` after every element whose key is not greater (the insertion
step of a stable sort). -/
def sInsert {α : Type} (le : α → α → Bool) (x : α) : List α → List α
  | [] => [x]
  | y :: ys => if le y x then y :: sInsert le x ys else x :: y :: ys

/-- Python `sorted`: a stable sort by the key order (embedded as the stable
insertion sort, which computes the same list as any stable sort for a total
preorder). -/
def pySorted {α : Type} (le : α → α → Bool) (l : List α) : List α :=
  l.foldl (fun acc x => sInsert le x acc) []

/-- `sorted_participants` of `print_report` (source lines 93-99). -/
def sorted_participants (now : DateTime) (ps : List (Str × FinalStats)) :
    List (Str × FinalStats) :=
  pySorted (keyLe now) ps

/-- The row condition of `export_csv` (source line 117), with its hard-coded
90-day threshold. -/
def csvRowActive (now : DateTime) (s : FinalStats) : Bool :=
  decide (1 ≤ s.messages) && decide ((1 : ℚ) ≤ s.contribution) &&
    (match s.last with
     | none => false
     | some t => decide (daysSince now t ≤ (90 : ℤ)))

/-- The inactive condition of `plot_activity_pie` (source line 152), with
its `inactivity_days` parameter (default 90): `messages < 1 or contribution
< 1 or last is None or (now - last).days > inactivity_days`. -/
def pieInactive (now : DateTime) (days : ℤ) (s : FinalStats) : Bool :=
  decide (s.messages < 1) || decide (s.contribution < (1 : ℚ)) ||
    (match s.last with
     | none => true
     | some t => decide (days < daysSince now t))

/-! ### Derived observations used to state the claims -/

/-- Total message count recorded in the in-flight participant map. -/
def sumMessages (ps : List (Str × Stats)) : Nat :=
  (ps.map fun p => p.2.messages).sum

/-- Total message count recorded in the finalized participant map. -/
def sumMessagesF (ps : List (Str × FinalStats)) : Nat :=
  (ps.map fun p => p.2.messages).sum

/-- The recorded `last` timestamp of participant `s`, absent when the
participant is unknown or has no message. -/
def lastOf (st : ChatState) (s : Str) : Option DateTime :=
  (lookupA st.participants s).bind Stats.last

/-- The timestamps of the lines that classify as messages sent by `s`, in
transcript order. -/
def sentTimes (lines : List Str) (s : Str) : List DateTime :=
  lines.filterMap fun raw =>
    match classify raw with
    | .message dt snd _ => if snd = s then some dt else none
    | _ => none

/-- One maximum step: `max(current, d)` with an absent current treated as
minus infinity. -/
def stepMax (o : Option DateTime) (d : DateTime) : Option DateTime :=
  some (match o with | none => d | some c => dtMax c d)

/-- The running maximum of a timestamp list, seeded with `o`. -/
def maxTime (o : Option DateTime) (l : List DateTime) : Option DateTime :=
  l.foldl stepMax o

/-- `o ≤ o2` for optional timestamps, an absent value being minus
infinity. -/
def dtOptLe (o o2 : Option DateTime) : Bool :=
  match o, o2 with
  | none, _ => true
  | some _, none => false
  | some a, some b => a = b || dtLt a b

/-! ### Concrete test data for the claims -/

/-- A transcript with 2 messages from Eve, 8 from Bob and an added-only
record for Frank: 10 total messages. -/
def c8Lines : List Str :=
  ["1/1/24, 10:00 - Eve: a".toList,
   "1/1/24, 10:01 - Eve: b".toList,
   "1/1/24, 10:02 - Bob: m1".toList,
   "1/1/24, 10:03 - Bob: m2".toList,
   "1/1/24, 10:04 - Bob: m3".toList,
   "1/1/24, 10:05 - Bob: m4".toList,
   "1/1/24, 10:06 - Bob: m5".toList,
   "1/1/24, 10:07 - Bob: m6".toList,
   "1/1/24, 10:08 - Bob: m7".toList,
   "1/1/24, 10:09 - Bob: m8".toList,
   "X added Frank".toList]

/-- The aggregation state the `c8Lines` transcript reaches (checked by
evaluation below). -/
def c8State : ChatState :=
  ⟨[("Eve".toList, ⟨2, some ⟨2024, 1, 1, 10, 1⟩⟩),
    ("Bob".toList, ⟨8, some ⟨2024, 1, 1, 10, 9⟩⟩),
    ("Frank".toList, ⟨0, none⟩)], 10⟩

/-- Reference instant for the ranking example. -/
def c6Now : DateTime := ⟨2024, 5, 10, 12, 0⟩

/-- Ranking example: A, Active with 10 messages (created first). -/
def c6A : Str × FinalStats := ("A".toList, ⟨10, some ⟨2024, 5, 10, 11, 0⟩, 10⟩)

/-- Ranking example: B, Inactive (never messaged a timestamped message)
with 50 recorded messages. -/
def c6B : Str × FinalStats := ("B".toList, ⟨50, none, 50⟩)

/-- Ranking example: C, Active with 10 messages, created after A. -/
def c6C : Str × FinalStats := ("C".toList, ⟨10, some ⟨2024, 5, 9, 11, 0⟩, 10⟩)

/-! ## Helper lemmas -/

/-- Looking up in an appended association list. -/
theorem lookupA_append {β : Type} :
    ∀ (ps qs : List (Str × β)) (n : Str),
      lookupA (ps ++ qs) n = ((lookupA ps n).orElse fun _ => lookupA qs n)
  | [], qs, n => by simp [lookupA]
  | (m, st) :: rest, qs, n => by
    by_cases h : m = n
    · simp [lookupA, h]
    · simp [lookupA, h, lookupA_append rest qs n]

/-- `setA` sets the entry it names. -/
theorem lookupA_setA_self :
    ∀ (ps : List (Str × Stats)) (n : Str) (st : Stats),
      lookupA (setA ps n st) n = some st
  | [], n, st => by simp [setA, lookupA]
  | (m, s0) :: rest, n, st => by
    by_cases h : m = n
    · simp [setA, lookupA, h]
    · simp [setA, lookupA, h, lookupA_setA_self rest n st]

/-- `setA` leaves every other entry unchanged. -/
theorem lookupA_setA_other :
    ∀ (ps : List (Str × Stats)) (n m : Str) (st : Stats), m ≠ n →
      lookupA (setA ps n st) m = lookupA ps m
  | [], n, m, st, h => by
    have hnm : ¬ n = m := fun hh => h hh.symm
    simp [setA, lookupA, hnm]
  | (k, s0) :: rest, n, m, st, h => by
    by_cases hk : k = n
    · subst hk
      have hkm : ¬ k = m := fun hh => h hh.symm
      simp [setA, lookupA, hkm]
    · simp only [setA, if_neg hk]
      by_cases hm : k = m
      · simp [lookupA, hm]
      · simp [lookupA, hm, lookupA_setA_other rest n m st h]

/-- `touch` makes the entry it names exist, with the default when new. -/
theorem lookupA_touch_self (ps : List (Str × Stats)) (n : Str) :
    lookupA (touch ps n) n = some ((lookupA ps n).getD Stats.init) := by
  unfold touch
  cases h : lookupA ps n with
  | some s => simp [h]
  | none => simp [h, lookupA_append, lookupA]

/-- `touch` leaves every other entry unchanged. -/
theorem lookupA_touch_other (ps : List (Str × Stats)) (n m : Str) (h : m ≠ n) :
    lookupA (touch ps n) m = lookupA ps m := by
  unfold touch
  cases h2 : lookupA ps n with
  | some s => rfl
  | none =>
    rw [lookupA_append]
    cases h3 : lookupA ps m with
    | some s => rfl
    | none =>
      have hnm : ¬ n = m := fun hh => h hh.symm
      simp [lookupA, hnm]

/-- `touch` is idempotent. -/
theorem touch_touch (ps : List (Str × Stats)) (n : Str) :
    touch (touch ps n) n = touch ps n := by
  cases h : lookupA ps n with
  | some s =>
    have h1 : touch ps n = ps := by unfold touch; rw [h]
    rw [h1, h1]
  | none =>
    have h1 : touch ps n = ps ++ [(n, Stats.init)] := by unfold touch; rw [h]
    rw [h1]
    unfold touch
    rw [lookupA_append, h]
    simp [lookupA]

/-- `touch` does not change the recorded message counts. -/
theorem sum_touch (ps : List (Str × Stats)) (n : Str) :
    sumMessages (touch ps n) = sumMessages ps := by
  unfold touch
  cases h : lookupA ps n with
  | some s => rfl
  | none => simp [sumMessages, Stats.init]

/-- How `setA` changes the total message count. -/
theorem sum_setA :
    ∀ (ps : List (Str × Stats)) (n : Str) (st : Stats),
      sumMessages (setA ps n st) + ((lookupA ps n).getD Stats.init).messages =
        sumMessages ps + st.messages
  | [], n, st => by simp [setA, lookupA, sumMessages, Stats.init]
  | (m, s0) :: rest, n, st => by
    by_cases h : m = n
    · simp [setA, lookupA, h, sumMessages]
      omega
    · have ih := sum_setA rest n st
      simp only [sumMessages] at ih ⊢
      simp [setA, lookupA, h]
      omega

/-- Folding the two counters of `member_status_counts` counts the satisfying
and the failing entries. -/
theorem member_counts_foldl (p : Str × FinalStats → Bool) :
    ∀ (ps : List (Str × FinalStats)) (a b : Nat),
      ps.foldl (fun c q => if p q then (c.1 + 1, c.2) else (c.1, c.2 + 1)) (a, b) =
        (a + ps.countP p, b + ps.countP (fun q => !p q)) := by
  intro ps
  induction ps with
  | nil => intro a b; simp
  | cons q rest ih =>
    intro a b
    by_cases h : p q = true
    · simp [List.foldl_cons, List.countP_cons, h, ih]
      omega
    · simp only [Bool.not_eq_true] at h
      simp [List.foldl_cons, List.countP_cons, h, ih]
      omega

/-- One loop iteration adds to the recorded message counts exactly what it
adds to `total_messages`. -/
theorem sum_processLine (st : ChatState) (raw : Str) :
    sumMessages (processLine st raw).participants + st.total =
      sumMessages st.participants + (processLine st raw).total := by
  unfold processLine
  cases classify raw with
  | added n => simp [ingest, sum_touch]
  | joined n => simp [ingest, sum_touch]
  | unrecognized => simp [ingest]
  | message dt snd b =>
    have h := sum_setA st.participants snd
      (updStats dt ((lookupA st.participants snd).getD Stats.init))
    have hm : (updStats dt ((lookupA st.participants snd).getD Stats.init)).messages =
        ((lookupA st.participants snd).getD Stats.init).messages + 1 := rfl
    simp only [ingest, recordMessage]
    omega

/-- The sum-equals-total invariant is preserved by any run of the loop. -/
theorem chatFold_invariant :
    ∀ (lines : List Str) (st : ChatState),
      sumMessages st.participants = st.total →
      sumMessages (lines.foldl processLine st).participants =
        (lines.foldl processLine st).total
  | [], st, h => h
  | raw :: rest, st, h => by
    apply chatFold_invariant rest
    have := sum_processLine st raw
    omega

/-- Finalization does not change the recorded message counts. -/
theorem sumMessagesF_finalize (st : ChatState) :
    sumMessagesF (finalize st) = sumMessages st.participants := by
  unfold sumMessagesF sumMessages finalize
  rw [List.map_map]
  rfl

/-- Looking up a finalized entry. -/
theorem lookupA_finalize :
    ∀ (ps : List (Str × Stats)) (t : Nat) (n : Str),
      lookupA (finalize ⟨ps, t⟩) n =
        (lookupA ps n).map fun s => ⟨s.messages, s.last, contributionOf s.messages t⟩
  | [], t, n => by simp [finalize, lookupA]
  | (m, s0) :: rest, t, n => by
    by_cases h : m = n
    · simp [finalize, lookupA, h]
    · have ih := lookupA_finalize rest t n
      simp only [finalize] at ih ⊢
      simp [lookupA, h, ih]

/-- A message updates the sender's `last` to the running maximum. -/
theorem lastOf_message_self (st : ChatState) (dt : DateTime) (s b : Str) :
    lastOf (ingest st (.message dt s b)) s = stepMax (lastOf st s) dt := by
  unfold lastOf ingest recordMessage stepMax
  rw [lookupA_setA_self]
  cases h : lookupA st.participants s with
  | none => simp [h, updStats, Stats.init]
  | some e =>
    cases he : e.last <;> simp [h, he, updStats, dtMax]

/-- A message leaves every other participant's `last` unchanged. -/
theorem lastOf_message_other (st : ChatState) (dt : DateTime) (s b m : Str)
    (h : m ≠ s) :
    lastOf (ingest st (.message dt s b)) m = lastOf st m := by
  unfold lastOf ingest recordMessage
  rw [lookupA_setA_other st.participants s m _ h]

/-- `touch` changes no participant's `last`. -/
theorem lastOf_touch (ps : List (Str × Stats)) (tot : Nat) (n s : Str) :
    lastOf ⟨touch ps n, tot⟩ s = lastOf ⟨ps, tot⟩ s := by
  unfold lastOf
  by_cases h : s = n
  · subst h
    show (lookupA (touch ps s) s).bind Stats.last = _
    rw [lookupA_touch_self]
    cases h2 : lookupA ps s with
    | some e => simp
    | none => simp [Stats.init]
  · show (lookupA (touch ps n) s).bind Stats.last = _
    rw [lookupA_touch_other ps n s h]

/-- `dtOptLe` is reflexive. -/
theorem dtOptLe_refl (o : Option DateTime) : dtOptLe o o = true := by
  cases o <;> simp [dtOptLe]

/-- A maximum step never decreases the running value. -/
theorem dtOptLe_stepMax (o : Option DateTime) (d : DateTime) :
    dtOptLe o (stepMax o d) = true := by
  cases o with
  | none => rfl
  | some c =>
    by_cases h : dtLt c d
    · simp [dtOptLe, stepMax, dtMax, h]
    · simp [dtOptLe, stepMax, dtMax, h]

/-- The recorded `last` of `s` after a run equals the running maximum of the
timestamps of the messages `s` sent, seeded with the starting value. -/
theorem lastOf_chatFold :
    ∀ (lines : List Str) (st : ChatState) (s : Str),
      lastOf (lines.foldl processLine st) s = maxTime (lastOf st s) (sentTimes lines s)
  | [], st, s => rfl
  | raw :: rest, st, s => by
    have ih := lastOf_chatFold rest (processLine st raw) s
    simp only [List.foldl_cons]
    rw [ih]
    cases hc : classify raw with
    | added n =>
      have h1 : lastOf (processLine st raw) s = lastOf st s := by
        unfold processLine; rw [hc]; exact lastOf_touch st.participants st.total n s
      have h2 : sentTimes (raw :: rest) s = sentTimes rest s := by
        simp [sentTimes, List.filterMap_cons, hc]
      rw [h1, h2]
    | joined n =>
      have h1 : lastOf (processLine st raw) s = lastOf st s := by
        unfold processLine; rw [hc]; exact lastOf_touch st.participants st.total n s
      have h2 : sentTimes (raw :: rest) s = sentTimes rest s := by
        simp [sentTimes, List.filterMap_cons, hc]
      rw [h1, h2]
    | unrecognized =>
      have h1 : lastOf (processLine st raw) s = lastOf st s := by
        unfold processLine; rw [hc]
        rfl
      have h2 : sentTimes (raw :: rest) s = sentTimes rest s := by
        simp [sentTimes, List.filterMap_cons, hc]
      rw [h1, h2]
    | message dt snd b =>
      by_cases hs : snd = s
      · subst hs
        have h1 : lastOf (processLine st raw) snd = stepMax (lastOf st snd) dt := by
          unfold processLine; rw [hc]; exact lastOf_message_self st dt snd b
        have h2 : sentTimes (raw :: rest) snd = dt :: sentTimes rest snd := by
          simp [sentTimes, List.filterMap_cons, hc]
        rw [h1, h2]
        rfl
      · have h1 : lastOf (processLine st raw) s = lastOf st s := by
          unfold processLine; rw [hc]
          exact lastOf_message_other st dt snd b s (fun hh => hs hh.symm)
        have h2 : sentTimes (raw :: rest) s = sentTimes rest s := by
          simp [sentTimes, List.filterMap_cons, hc, hs]
        rw [h1, h2]

/-- A successful `ADDED_PATTERN` match exhibits `" added " ++ result` as a
suffix of the line. -/
theorem matchAdded_isSuffix :
    ∀ (l r : Str), matchAdded l = some r → addedTok ++ r <:+ l
  | [], r, h => by simp [matchAdded] at h
  | c :: rest, r, h => by
    unfold matchAdded at h
    cases hm : matchAdded rest with
    | some r0 =>
      rw [hm] at h
      injection h with h
      subst h
      exact (matchAdded_isSuffix rest r0 hm).trans (List.suffix_cons c rest)
    | none =>
      rw [hm] at h
      by_cases hp : addedTok.isPrefixOf (c :: rest)
      · rw [if_pos hp] at h
        injection h with h
        subst h
        obtain ⟨t, ht⟩ := List.isPrefixOf_iff_prefix.mp hp
        have hd : (c :: rest).drop addedTok.length = t := by
          rw [← ht]
          simp
        rw [hd, ht]
      · rw [if_neg hp] at h
        exact absurd h (by simp)

/-- When `ADDED_PATTERN` does not match, no `" added " ++ r` is a suffix of
the line. -/
theorem matchAdded_none :
    ∀ (l r : Str), matchAdded l = none → ¬ (addedTok ++ r <:+ l)
  | [], r, _, hs => by
    have := hs.length_le
    simp [addedTok] at this
  | c :: rest, r, h, hs => by
    unfold matchAdded at h
    cases hm : matchAdded rest with
    | some r0 =>
      rw [hm] at h
      exact absurd h (by simp)
    | none =>
      rw [hm] at h
      rcases List.suffix_cons_iff.mp hs with heq | hsuf
      · by_cases hp : addedTok.isPrefixOf (c :: rest)
        · rw [if_pos hp] at h
          exact absurd h (by simp)
        · exact hp (List.isPrefixOf_iff_prefix.mpr ⟨r, heq⟩)
      · exact matchAdded_none rest r hm hsuf

/-- The `ADDED_PATTERN` result is the SHORTEST remainder whose
`" added " ++ remainder` is a suffix — the split at the LAST occurrence of
`" added "` (the first group of the pattern is greedy). -/
theorem matchAdded_minimal :
    ∀ (l r r2 : Str), matchAdded l = some r → addedTok ++ r2 <:+ l →
      r.length ≤ r2.length
  | [], r, r2, h, _ => by simp [matchAdded] at h
  | c :: rest, r, r2, h, hs => by
    unfold matchAdded at h
    cases hm : matchAdded rest with
    | some r0 =>
      rw [hm] at h
      injection h with h
      subst h
      rcases List.suffix_cons_iff.mp hs with heq | hsuf
      · have h1 : (addedTok ++ r0).length ≤ rest.length :=
          (matchAdded_isSuffix rest r0 hm).length_le
        have h2 : (addedTok ++ r2).length = (c :: rest).length := by rw [heq]
        simp only [List.length_append, List.length_cons] at h1 h2
        omega
      · exact matchAdded_minimal rest r0 r2 hm hsuf
    | none =>
      rw [hm] at h
      by_cases hp : addedTok.isPrefixOf (c :: rest)
      · rw [if_pos hp] at h
        injection h with h
        subst h
        rcases List.suffix_cons_iff.mp hs with heq | hsuf
        · have h2 : (addedTok ++ r2).length = (c :: rest).length := by rw [heq]
          have h4 : ((c :: rest).drop addedTok.length).length =
              (c :: rest).length - addedTok.length := List.length_drop _ _
          simp only [List.length_append] at h2
          omega
        · exact absurd hsuf (matchAdded_none rest r2 hm)
      · rw [if_neg hp] at h
        exact absurd h (by simp)

/-- Full characterization of `ADDED_PATTERN`: it matches with result `r`
exactly when `" added " ++ r` is a suffix of the line and `r` is shortest
such — i.e. `r` is the remainder after the last occurrence. -/
theorem matchAdded_iff (l r : Str) :
    matchAdded l = some r ↔
      (addedTok ++ r <:+ l ∧
        ∀ r2 : Str, addedTok ++ r2 <:+ l → r.length ≤ r2.length) := by
  constructor
  · intro h
    exact ⟨matchAdded_isSuffix l r h, fun r2 hs => matchAdded_minimal l r r2 h hs⟩
  · rintro ⟨hs, hmin⟩
    cases hm : matchAdded l with
    | none => exact absurd hs (matchAdded_none l r hm)
    | some r0 =>
      have h1 := matchAdded_isSuffix l r0 hm
      have h2 := matchAdded_minimal l r0 r hm hs
      have h3 := hmin r0 h1
      have hr : r = r0 := by
        have hlen : (addedTok ++ r).length = (addedTok ++ r0).length := by
          simp only [List.length_append]
          omega
        have hss : addedTok ++ r <:+ addedTok ++ r0 :=
          List.suffix_of_suffix_length_le hs h1 (le_of_eq hlen)
        exact List.append_inj_right (hss.eq_of_length hlen) rfl
      rw [hr]

/-- Looking up a finalized entry, stated on the whole state. -/
theorem lookupA_finalize2 (st : ChatState) (n : Str) :
    lookupA (finalize st) n =
      (lookupA st.participants n).map fun s =>
        ⟨s.messages, s.last, contributionOf s.messages st.total⟩ :=
  lookupA_finalize st.participants st.total n

/-- Rounding-half-to-even fixes the integers. -/
theorem bround_intCast (v : ℤ) : bround ((v : ℚ)) = v := by
  unfold bround
  rw [Int.floor_intCast]
  norm_num

/-- Two-decimal rounding fixes the integers. -/
theorem round2_intCast (v : ℤ) : round2 ((v : ℚ)) = (v : ℚ) := by
  unfold round2
  rw [show ((v : ℚ) * 100) = (((v * 100 : ℤ)) : ℚ) by push_cast; ring]
  rw [bround_intCast]
  push_cast
  ring

/-- The sort key order is total. -/
theorem keyLe_total (now : DateTime) (a b : Str × FinalStats) :
    keyLe now a b = true ∨ keyLe now b a = true := by
  unfold keyLe
  simp only [decide_eq_true_eq]
  omega

/-- The sort key order is transitive. -/
theorem keyLe_trans (now : DateTime) (a b c : Str × FinalStats)
    (h1 : keyLe now a b = true) (h2 : keyLe now b c = true) :
    keyLe now a c = true := by
  unfold keyLe at h1 h2 ⊢
  simp only [decide_eq_true_eq] at h1 h2 ⊢
  omega

/-- Equal sort keys compare as less-or-equal. -/
theorem keyLe_of_key_eq (now : DateTime) (a b : Str × FinalStats)
    (h : sortKey now a = sortKey now b) : keyLe now a b = true := by
  unfold keyLe
  rw [h]
  simp

/-- Membership in an insertion. -/
theorem mem_sInsert {α : Type} (le : α → α → Bool) (x : α) :
    ∀ (l : List α) (z : α), z ∈ sInsert le x l ↔ z = x ∨ z ∈ l
  | [], z => by simp [sInsert]
  | y :: ys, z => by
    unfold sInsert
    by_cases h : le y x = true
    · simp only [if_pos h, List.mem_cons, mem_sInsert le x ys z]
      try tauto
    · simp only [if_neg h, List.mem_cons]
      try tauto

/-- Inserting into a key-sorted list keeps it key-sorted. -/
theorem sInsert_pairwise {α : Type} (le : α → α → Bool)
    (htot : ∀ a b, le a b = true ∨ le b a = true)
    (htrans : ∀ a b c, le a b = true → le b c = true → le a c = true) (x : α) :
    ∀ l : List α, l.Pairwise (fun a b => le a b = true) →
      (sInsert le x l).Pairwise (fun a b => le a b = true)
  | [], _ => by simp [sInsert]
  | y :: ys, hp => by
    rw [List.pairwise_cons] at hp
    obtain ⟨hy, hys⟩ := hp
    unfold sInsert
    by_cases h : le y x = true
    · rw [if_pos h, List.pairwise_cons]
      refine ⟨?_, sInsert_pairwise le htot htrans x ys hys⟩
      intro z hz
      rcases (mem_sInsert le x ys z).mp hz with hzx | hzy
      · rw [hzx]; exact h
      · exact hy z hzy
    · rw [if_neg h, List.pairwise_cons]
      have hxy : le x y = true := (htot x y).resolve_right fun hh => h hh
      refine ⟨?_, List.pairwise_cons.mpr ⟨hy, hys⟩⟩
      intro z hz
      rcases List.mem_cons.mp hz with hzy | hzs
      · rw [hzy]; exact hxy
      · exact htrans x y z hxy (hy z hzs)

/-- A run of the stable-sort fold keeps the accumulator key-sorted. -/
theorem pySorted_pairwise {α : Type} (le : α → α → Bool)
    (htot : ∀ a b, le a b = true ∨ le b a = true)
    (htrans : ∀ a b c, le a b = true → le b c = true → le a c = true) :
    ∀ (l acc : List α), acc.Pairwise (fun a b => le a b = true) →
      (l.foldl (fun acc x => sInsert le x acc) acc).Pairwise
        (fun a b => le a b = true)
  | [], acc, h => h
  | x :: rest, acc, h => by
    simp only [List.foldl_cons]
    exact pySorted_pairwise le htot htrans rest _
      (sInsert_pairwise le htot htrans x acc h)

/-- Inserting an element is a permutation step. -/
theorem sInsert_perm {α : Type} (le : α → α → Bool) (x : α) :
    ∀ l : List α, (sInsert le x l).Perm (x :: l)
  | [] => List.Perm.refl _
  | y :: ys => by
    unfold sInsert
    by_cases h : le y x = true
    · rw [if_pos h]
      exact ((sInsert_perm le x ys).cons y).trans (List.Perm.swap x y ys)
    · rw [if_neg h]

/-- The stable-sort fold permutes its input onto the accumulator. -/
theorem pySorted_perm {α : Type} (le : α → α → Bool) :
    ∀ (l acc : List α),
      (l.foldl (fun acc x => sInsert le x acc) acc).Perm (acc ++ l)
  | [], acc => by simp
  | x :: rest, acc => by
    simp only [List.foldl_cons]
    refine (pySorted_perm le rest (sInsert le x acc)).trans ?_
    refine (List.Perm.append_right rest ((sInsert_perm le x acc))).trans ?_
    exact List.perm_middle.symm

/-- Inserting an element another key-class does not see leaves that class's
filter unchanged. -/
theorem filter_sInsert_ne {α : Type} (le : α → α → Bool) (p : α → Bool)
    (x : α) (hx : p x = false) :
    ∀ l : List α, (sInsert le x l).filter p = l.filter p
  | [] => by simp [sInsert, hx]
  | y :: ys => by
    unfold sInsert
    by_cases h : le y x = true
    · rw [if_pos h, List.filter_cons, List.filter_cons,
        filter_sInsert_ne le p x hx ys]
    · rw [if_neg h, List.filter_cons, hx, if_neg (by simp), List.filter_cons]

/-- Inserting an element of key `c` into a key-sorted list appends it at the
end of the key-`c` class (stability of the insertion). -/
theorem filter_sInsert_key (now : DateTime) (x : Str × FinalStats) (c : ℤ × ℤ)
    (hx : sortKey now x = c) :
    ∀ l : List (Str × FinalStats),
      l.Pairwise (fun a b => keyLe now a b = true) →
      (sInsert (keyLe now) x l).filter (fun a => decide (sortKey now a = c)) =
        l.filter (fun a => decide (sortKey now a = c)) ++ [x]
  | [], _ => by simp [sInsert, hx]
  | y :: ys, hp => by
    rw [List.pairwise_cons] at hp
    obtain ⟨hy, hys⟩ := hp
    unfold sInsert
    by_cases h : keyLe now y x = true
    · rw [if_pos h, List.filter_cons, List.filter_cons,
        filter_sInsert_key now x c hx ys hys]
      by_cases hyc : sortKey now y = c <;> simp [hyc]
    · have hyc : ¬ sortKey now y = c := fun hh =>
        h (keyLe_of_key_eq now y x (hh.trans hx.symm))
      have hfil : (y :: ys).filter (fun a => decide (sortKey now a = c)) = [] := by
        rw [List.filter_eq_nil_iff]
        intro z hz
        simp only [decide_eq_true_eq]
        rcases List.mem_cons.mp hz with hzy | hzs
        · rw [hzy]; exact hyc
        · intro hh
          exact h (keyLe_trans now y z x (hy z hzs)
            (keyLe_of_key_eq now z x (hh.trans hx.symm)))
      rw [if_neg h, List.filter_cons, hfil]
      simp [hx]

/-- The stable-sort fold preserves each key class in input order. -/
theorem pySorted_filter_key (now : DateTime) (c : ℤ × ℤ) :
    ∀ (l acc : List (Str × FinalStats)),
      acc.Pairwise (fun a b => keyLe now a b = true) →
      (l.foldl (fun acc x => sInsert (keyLe now) x acc) acc).filter
          (fun a => decide (sortKey now a = c)) =
        acc.filter (fun a => decide (sortKey now a = c)) ++
          l.filter (fun a => decide (sortKey now a = c))
  | [], acc, _ => by simp
  | x :: rest, acc, h => by
    simp only [List.foldl_cons]
    rw [pySorted_filter_key now c rest (sInsert (keyLe now) x acc)
      (sInsert_pairwise (keyLe now) (keyLe_total now) (keyLe_trans now) x acc h)]
    by_cases hx : sortKey now x = c
    · rw [filter_sInsert_key now x c hx acc h, List.filter_cons]
      simp [hx]
    · rw [filter_sInsert_ne (keyLe now) _ x (by simp [hx]) acc, List.filter_cons]
      simp [hx]

/-! ## The claims -/

/-- C1: for every finalized record, reference instant `now` and threshold
`inactivityDays` (default 90), the status classification of
`member_status_counts` returns Active iff `messageCount >= 1`,
`contributionPercent >= 1`, `lastMessageTimestamp` present, and
`(now - last).days <= inactivityDays` all hold, and otherwise Inactive
(the counters count exactly the records satisfying / failing the
conjunction); a record with 5 messages and contribution 0.5 is Inactive
whatever its last timestamp, and a record with no messages is Inactive
unconditionally. -/
theorem c1_status_classification :
    (∀ (s : FinalStats) (now : DateTime) (days : ℤ),
      statusActive now days s = true ↔
        (1 ≤ s.messages ∧ (1 : ℚ) ≤ s.contribution ∧
          ∃ t, s.last = some t ∧ daysSince now t ≤ days)) ∧
    (∀ ps now days, member_status_counts ps now days =
      (ps.countP (fun p => statusActive now days p.2),
       ps.countP (fun p => !statusActive now days p.2))) ∧
    (∀ (now : DateTime) (days : ℤ) (t : Option DateTime),
      statusActive now days ⟨5, t, 1 / 2⟩ = false) ∧
    (∀ (now : DateTime) (days : ℤ) (t : Option DateTime) (q : ℚ),
      statusActive now days ⟨0, t, q⟩ = false) := by
  refine ⟨?_, ?_, ?_, ?_⟩
  · intro s now days
    unfold statusActive
    cases h : s.last with
    | none => simp [h]
    | some t => simp [h, and_assoc]
  · intro ps now days
    unfold member_status_counts
    simpa using member_counts_foldl (fun p => statusActive now days p.2) ps 0 0
  · intro now days t
    unfold statusActive
    cases t with
    | none => simp
    | some v =>
      simp
      intro hq
      norm_num at hq
  · intro now days t q
    unfold statusActive
    cases t <;> simp

/-- C4: the line `"12/5/23, 14:05 - Alice: hello"` classifies as a message
event with sender `"Alice"`, body `"hello"` and timestamp 12 May 2023,
14:05; the timestamp comes from the `D/M/YY 24h` format (`%d/%m/%y, %H:%M`,
the second format of `parse_date`), the `D/M/YYYY 24h` format having failed
on the two-digit year. -/
theorem c4_message_line :
    classify "12/5/23, 14:05 - Alice: hello".toList =
      Event.message ⟨2023, 5, 12, 14, 5⟩ "Alice".toList "hello".toList ∧
    tryDMY4 "12/5/23, 14:05".toList = none ∧
    tryDMY2 "12/5/23, 14:05".toList = some ⟨2023, 5, 12, 14, 5⟩ := by
  refine ⟨?_, ?_, ?_⟩ <;> decide

/-- C10: for the same finalized record, the same `now` and the default
90-day threshold, the status conditions of `member_status_counts`
(`statusActive`), the console-report row (`reportRowActive`), the CSV row
(`csvRowActive`) and the pie chart (`pieInactive`) classify identically —
the pie chart's disjunction is the exact negation of the Active
conjunction, at any threshold. -/
theorem c10_status_sites_agree :
    ∀ (now : DateTime) (s : FinalStats),
      reportRowActive now s = statusActive now 90 s ∧
      csvRowActive now s = statusActive now 90 s ∧
      (∀ days : ℤ, pieInactive now days s = !statusActive now days s) := by
  intro now s
  refine ⟨rfl, rfl, fun days => ?_⟩
  unfold pieInactive statusActive
  cases h : s.last with
  | none => simp [not_le, not_lt]
  | some t =>
    simp only [h, Bool.not_and, ← decide_not]
    congr 1
    · congr 1
      · exact decide_eq_decide.mpr (by omega)
      · exact decide_eq_decide.mpr not_le.symm
    · exact decide_eq_decide.mpr not_le.symm

/-- C2: for every transcript, the sum of the recorded `messageCount` over
all participants equals `totalMessages` — after every prefix of the line
stream, after the whole stream, and in the finalized snapshot that
`analyze_chat` returns. -/
theorem c2_sum_equals_total :
    (∀ (lines : List Str) (n : Nat),
      sumMessages (chatFold (lines.take n)).participants =
        (chatFold (lines.take n)).total) ∧
    (∀ lines : List Str,
      sumMessages (chatFold lines).participants = (chatFold lines).total) ∧
    (∀ lines : List Str,
      sumMessagesF (analyze_chat lines).1 = (analyze_chat lines).2) := by
  have key : ∀ lines : List Str,
      sumMessages (chatFold lines).participants = (chatFold lines).total :=
    fun lines => chatFold_invariant lines ChatState.init rfl
  refine ⟨fun lines n => key (lines.take n), key, fun lines => ?_⟩
  have h := key lines
  unfold analyze_chat
  rw [sumMessagesF_finalize]
  exact h

/-- C7: ingesting `MessageEvent{dt, s, b}` increments the sender's
`messageCount` by exactly 1, increments `totalMessages` by exactly 1, sets
the sender's `lastMessageTimestamp` to `max(current, dt)` (absent current
treated as minus infinity) and touches no other record; consequently the
recorded `last` never regresses under any single ingestion step, and after
a whole run it equals the maximum timestamp among the participant's
messages (absent if they sent none). -/
theorem c7_message_update :
    (∀ (st : ChatState) (dt : DateTime) (s b : Str),
      (ingest st (.message dt s b)).total = st.total + 1 ∧
      lookupA (ingest st (.message dt s b)).participants s =
        some ⟨((lookupA st.participants s).getD Stats.init).messages + 1,
          some (match ((lookupA st.participants s).getD Stats.init).last with
                | none => dt
                | some c => dtMax c dt)⟩ ∧
      (∀ m, m ≠ s →
        lookupA (ingest st (.message dt s b)).participants m =
          lookupA st.participants m)) ∧
    (∀ (st : ChatState) (raw : Str) (s : Str),
      dtOptLe (lastOf st s) (lastOf (processLine st raw) s) = true) ∧
    (∀ (lines : List Str) (s : Str),
      lastOf (chatFold lines) s = maxTime none (sentTimes lines s)) := by
  refine ⟨fun st dt s b => ⟨rfl, ?_, ?_⟩, ?_, ?_⟩
  · show lookupA (recordMessage st.participants s dt) s = _
    unfold recordMessage
    rw [lookupA_setA_self]
    cases h : ((lookupA st.participants s).getD Stats.init).last <;>
      simp [updStats, h, dtMax]
  · exact fun m hm => lookupA_setA_other st.participants s m _ hm
  · intro st raw s
    unfold processLine
    cases hc : classify raw with
    | added n =>
      rw [show lastOf (ingest st (.added n)) s = lastOf st s from
        lastOf_touch st.participants st.total n s]
      exact dtOptLe_refl _
    | joined n =>
      rw [show lastOf (ingest st (.joined n)) s = lastOf st s from
        lastOf_touch st.participants st.total n s]
      exact dtOptLe_refl _
    | unrecognized => exact dtOptLe_refl _
    | message dt snd b =>
      by_cases hs : snd = s
      · subst hs
        rw [lastOf_message_self st dt snd b]
        exact dtOptLe_stepMax _ _
      · rw [lastOf_message_other st dt snd b s (fun hh => hs hh.symm)]
        exact dtOptLe_refl _
  · intro lines s
    exact lastOf_chatFold lines ChatState.init s

/-- C9: ingesting a `MemberAddedEvent` or `MemberJoinedEvent` for `n` only
ensures a record for `n` exists (with zero messages and absent timestamp
when new): the two events act identically, `totalMessages` and every other
record are unchanged, and the operation is idempotent.  The line
`"Bob added Carol"` produces the added-event for `"Carol"` and the
joined-via-link line for `"Dave"` produces the joined-event for
`"Dave"`. -/
theorem c9_membership_events :
    (∀ (st : ChatState) (n : Str),
      ingest st (.added n) = ingest st (.joined n) ∧
      (ingest st (.added n)).total = st.total ∧
      lookupA (ingest st (.added n)).participants n =
        some ((lookupA st.participants n).getD Stats.init) ∧
      (∀ m, m ≠ n →
        lookupA (ingest st (.added n)).participants m = lookupA st.participants m) ∧
      ingest (ingest st (.added n)) (.added n) = ingest st (.added n)) ∧
    classify "Bob added Carol".toList = Event.added "Carol".toList ∧
    classify ("Dave".toList ++ joinedTok) = Event.joined "Dave".toList := by
  refine ⟨fun st n => ⟨rfl, rfl, ?_, ?_, ?_⟩, by decide, by decide⟩
  · exact lookupA_touch_self st.participants n
  · exact fun m hm => lookupA_touch_other st.participants n m hm
  · show (⟨touch (touch st.participants n) n, st.total⟩ : ChatState) = _
    rw [touch_touch]
    rfl

/-- C3 counterexample: for the line `"A added B added C"` (two occurrences
of `" added "`), the code captures `"C"` — the remainder after the LAST
occurrence — not `"B added C"`, the remainder after the first occurrence
the claim asserts. -/
theorem c3_counterexample :
    classify "A added B added C".toList = Event.added "C".toList ∧
    matchAdded "A added B added C".toList = some "C".toList ∧
    "C".toList ≠ "B added C".toList := by
  refine ⟨?_, ?_, ?_⟩ <;> decide

/-- C3 (amended): a stripped line of the shape `"<anything> added
<memberName>"` classifies as the added-event — the added pattern is checked
before the joined and message patterns, so such a line is consumed as an
added-event even when it also matches the timestamped-message shape — and,
the first group of `^(.*) added (.*)$` being greedy, the captured
`memberName` is the remainder of the line after the LAST occurrence of the
literal token `" added "` (the shortest `r` with `" added " ++ r` a suffix
of the line). -/
theorem c3_added_pattern :
    (∀ l r : Str, matchAdded l = some r ↔
      (addedTok ++ r <:+ l ∧
        ∀ r2 : Str, addedTok ++ r2 <:+ l → r.length ≤ r2.length)) ∧
    (∀ (raw : Str) (m : Str), matchAdded (strip raw) = some m →
      classify raw = Event.added (strip m)) ∧
    classify "1/1/24, 10:00 - Bob: he added Carol".toList =
      Event.added "Carol".toList := by
  refine ⟨matchAdded_iff, ?_, by decide⟩
  intro raw m h
  unfold classify
  simp only []
  rw [h]

/-- C5: `parse_date` attempts exactly the four format families
`{D/M/YYYY 24h, D/M/YY 24h, M/D/YYYY 12h+meridiem, M/D/YY 12h+meridiem}`
in that order and returns the first full parse; and a line that matches the
timestamped-message shape but fails every format is silently skipped: the
state (participants and totalMessages) is unchanged and no error is
raised. -/
theorem c5_date_formats_in_order :
    (∀ s : Str, parse_date s =
      ((tryDMY4 s).orElse fun _ => (tryDMY2 s).orElse fun _ =>
        (tryMDY4 s).orElse fun _ => tryMDY2 s)) ∧
    (∀ (st : ChatState) (raw d snd b : Str),
      matchAdded (strip raw) = none →
      matchJoined (strip raw) = none →
      matchLine (strip raw) = some (d, snd, b) →
      parse_date d = none →
      processLine st raw = st) := by
  constructor
  · intro s
    unfold parse_date formats
    simp only [List.foldl_cons, List.foldl_nil]
    cases h1 : tryDMY4 s <;> cases h2 : tryDMY2 s <;> cases h3 : tryMDY4 s <;>
      simp [Option.orElse, h1, h2, h3]
  · intro st raw d snd b h1 h2 h3 h4
    unfold processLine classify
    simp only []
    rw [h1, h2, h3]
    show ingest st
      (match parse_date d with
       | some dt => Event.message dt snd b
       | none => Event.unrecognized) = st
    rw [h4]
    rfl

/-- C5 witness: the line `"13/13/13, 10:00 - A: b"` matches neither
membership pattern, matches the message shape, fails all four date formats
(month 13), and leaves the starting state unchanged. -/
theorem c5_witness :
    matchAdded (strip "13/13/13, 10:00 - A: b".toList) = none ∧
    matchJoined (strip "13/13/13, 10:00 - A: b".toList) = none ∧
    matchLine (strip "13/13/13, 10:00 - A: b".toList) =
      some ("13/13/13, 10:00".toList, "A".toList, "b".toList) ∧
    parse_date "13/13/13, 10:00".toList = none ∧
    processLine ChatState.init "13/13/13, 10:00 - A: b".toList = ChatState.init :=
  ⟨by decide, by decide, by decide, by decide,
    c5_date_formats_in_order.2 ChatState.init "13/13/13, 10:00 - A: b".toList
      "13/13/13, 10:00".toList "A".toList "b".toList
      (by decide) (by decide) (by decide) (by decide)⟩

/-- C6: `print_report` orders the rows by the stable sort on the key
(status, -messages): the output is a permutation of the snapshot that is
sorted by the key (every Active row before every Inactive row, message
counts descending within a status), and rows of equal key — in particular
equal status and equal message count — keep their creation order (each key
class filters out of the result exactly as it stood in the input).  For
A (Active, 10 msgs), B (Inactive, 50 msgs), C (Active, 10 msgs, created
after A) the order is [A, C, B]. -/
theorem c6_report_ordering :
    (∀ (now : DateTime) (ps : List (Str × FinalStats)),
      (sorted_participants now ps).Pairwise (fun a b => keyLe now a b = true)) ∧
    (∀ (now : DateTime) (ps : List (Str × FinalStats)),
      (sorted_participants now ps).Perm ps) ∧
    (∀ (now : DateTime) (ps : List (Str × FinalStats)) (c : ℤ × ℤ),
      (sorted_participants now ps).filter (fun a => decide (sortKey now a = c)) =
        ps.filter (fun a => decide (sortKey now a = c))) ∧
    sorted_participants c6Now [c6A, c6B, c6C] = [c6A, c6C, c6B] := by
  refine ⟨?_, ?_, ?_, by decide⟩
  · intro now ps
    exact pySorted_pairwise (keyLe now) (keyLe_total now) (keyLe_trans now) ps []
      (List.Pairwise.nil)
  · intro now ps
    simpa using pySorted_perm (keyLe now) ps []
  · intro now ps c
    simpa using pySorted_filter_key now c ps [] (List.Pairwise.nil)

/-- C8: every finalized record's `contributionPercent` is
`messageCount / totalMessages * 100` rounded to two decimals, computed from
the `totalMessages` of the finished run, and is 0 for every participant
when `totalMessages` is 0 (an empty or message-free transcript is not an
error).  On the concrete transcript with 2 messages from Eve and an
added-only Frank out of 10 total, Eve's contribution is 20 and Frank's
is 0. -/
theorem c8_contribution :
    (∀ (st : ChatState) (n : Str) (s : Stats),
      lookupA st.participants n = some s →
      lookupA (finalize st) n =
        some ⟨s.messages, s.last,
          if st.total = 0 then 0
          else round2 ((s.messages : ℚ) / (st.total : ℚ) * 100)⟩) ∧
    (∀ st : ChatState, st.total = 0 →
      ∀ p ∈ finalize st, p.2.contribution = 0) ∧
    ((analyze_chat c8Lines).2 = 10 ∧
     (lookupA (analyze_chat c8Lines).1 "Eve".toList).map FinalStats.contribution =
       some 20 ∧
     (lookupA (analyze_chat c8Lines).1 "Frank".toList).map FinalStats.contribution =
       some 0) ∧
    (analyze_chat []).1 = [] ∧ (analyze_chat []).2 = 0 ∧
    (lookupA (analyze_chat ["X added Frank".toList]).1 "Frank".toList).map
      FinalStats.contribution = some 0 := by
  have hst : chatFold c8Lines = c8State := by decide
  have h20 : contributionOf 2 10 = 20 := by
    unfold contributionOf
    rw [if_neg (by norm_num)]
    rw [show ((2 : ℕ) : ℚ) / ((10 : ℕ) : ℚ) * 100 = (((20 : ℤ)) : ℚ) by norm_num]
    rw [round2_intCast]
    norm_num
  have h0 : contributionOf 0 10 = 0 := by
    unfold contributionOf
    rw [if_neg (by norm_num)]
    rw [show ((0 : ℕ) : ℚ) / ((10 : ℕ) : ℚ) * 100 = (((0 : ℤ)) : ℚ) by norm_num]
    rw [round2_intCast]
    norm_num
  refine ⟨?_, ?_, ⟨by decide, ?_, ?_⟩, by decide, by decide, by decide⟩
  · intro st n s h
    rw [lookupA_finalize2, h]
    simp [contributionOf]
  · intro st hz p hp
    unfold finalize at hp
    obtain ⟨q, _, hq⟩ := List.mem_map.mp hp
    rw [← hq]
    simp [contributionOf, hz]
  · rw [show (analyze_chat c8Lines).1 = finalize (chatFold c8Lines) from rfl, hst,
      lookupA_finalize2,
      show lookupA c8State.participants "Eve".toList =
        some ⟨2, some ⟨2024, 1, 1, 10, 1⟩⟩ from by decide]
    show some (contributionOf 2 c8State.total) = some 20
    rw [show contributionOf 2 c8State.total = contributionOf 2 10 from rfl, h20]
  · rw [show (analyze_chat c8Lines).1 = finalize (chatFold c8Lines) from rfl, hst,
      lookupA_finalize2,
      show lookupA c8State.participants "Frank".toList =
        some ⟨0, none⟩ from by decide]
    show some (contributionOf 0 c8State.total) = some 0
    rw [show contributionOf 0 c8State.total = contributionOf 0 10 from rfl, h0]

end InactivityReport





